import Mathlib

/-!
Verification development for the `c-scanner` repository (`src/main.cpp`).

The file shallowly embeds the ignore-rule matcher of the program:
`Trim`, `NormalizeSlashes`, `Split`, `SegmentMatch`, `TokensMatch`,
`WildMatchPath`, `GitWildMatch`, `IsIgnored` and the `.gitignore`
compilation loop of `LoadGitignoreSpec`.  C++ `std::string` values are
embedded as `List Char`; file reading is modelled by passing the file's
contents as an argument.  Machine-level invariants: all C++ indices are
nonnegative `size_t` values embedded as `Nat`.
-/

/-- A C++ `std::string`, embedded as its character sequence. -/
abbrev Str := List Char

/-- Characters stripped by `Trim` (main.cpp:39-45). -/
def IsSpaceChar (c : Char) : Bool :=
  c = ' ' || c = '\t' || c = '\r' || c = '\n'

/-- Embedding of `Trim` (main.cpp:39-45): strip spaces, tabs, CR and LF from both ends. -/
def Trim (s : Str) : Str :=
  ((s.dropWhile fun c => IsSpaceChar c).reverse.dropWhile fun c => IsSpaceChar c).reverse

/-- Embedding of `NormalizeSlashes` (main.cpp:51-54): map every backslash to a slash. -/
def NormalizeSlashes (s : Str) : Str :=
  s.map fun c => if c = '\\' then '/' else c

/-- Embedding of `struct Pattern` (main.cpp:82-87). -/
structure Pattern where
  pattern : Str
  negated : Bool
  dir_only : Bool
  anchored : Bool
deriving DecidableEq

/-- Embedding of `Split` (main.cpp:89-102): split on a delimiter; the running chunk is
pushed at every delimiter and once more at the end, so the result is never
empty and keeps empty chunks. -/
def Split (s : Str) (delim : Char) : List Str :=
  match s with
  | [] => [[]]
  | c :: rest =>
    if c = delim then
      [] :: Split rest delim
    else
      match Split rest delim with
      | [] => [[c]]
      | cur :: out => (c :: cur) :: out

/-- The helper loop at main.cpp:120: `while (pi < pat.size() && pat[pi] == '*') ++pi;`. -/
def SkipStars (pat : Str) (pi : Nat) : Nat :=
  if h : pi < pat.length ∧ pat.getD pi ' ' = '*' then
    SkipStars pat (pi + 1)
  else
    pi
termination_by pat.length - pi
decreasing_by omega

/-- The `while (ti < text.size())` loop of `SegmentMatch` (main.cpp:104-122),
with the mutable locals `pi`, `ti`, `star_pi`, `star_ti` passed as explicit
state.  `star = none` embeds `star_pi == npos`. -/
def SegmentMatchLoop (pat text : Str) (pi ti : Nat) (star : Option (Nat × Nat)) : Bool :=
  if _h1 : ti < text.length then
    if h2 : pi < pat.length ∧ (pat.getD pi ' ' = '?' ∨ pat.getD pi ' ' = text.getD ti ' ') then
      SegmentMatchLoop pat text (pi + 1) (ti + 1) star
    else if h3 : pi < pat.length ∧ pat.getD pi ' ' = '*' then
      SegmentMatchLoop pat text (pi + 1) ti (some (pi + 1, ti))
    else
      match star with
      | some (spi, sti) => SegmentMatchLoop pat text spi (sti + 1) (some (spi, sti + 1))
      | none => false
  else
    SkipStars pat pi == pat.length
termination_by
  (text.length - min ((star.map Prod.snd).getD 0) ti, text.length - ti, pat.length - pi)
decreasing_by
  · rcases star with _ | ⟨spi, sti⟩ <;> simp [Prod.lex_def] <;> omega
  · rcases star with _ | ⟨spi, sti⟩ <;> simp [Prod.lex_def] <;> omega
  · simp [Prod.lex_def]; omega

/-- Embedding of `SegmentMatch` (main.cpp:104-122): entry point of the two-pointer
single-segment glob matcher. -/
def SegmentMatch (pat text : Str) : Bool :=
  SegmentMatchLoop pat text 0 0 none

/-- The double-star pattern token `"**"`. -/
def dstar : Str := ['*', '*']

/-- Embedding of `TokensMatch` (main.cpp:124-137): recursive segment-sequence matcher over
pattern tokens and path tokens, from indices `pi`, `si`.  The guard
`pi == ptokens.size()` is written `ptokens.length ≤ pi` (identical on every
reachable call, where `pi` never exceeds the length).  The C++ `for` loop over
`k` in `[si, stokens.size()]` is embedded as `List.any` over `k = si + j`. -/
def TokensMatch (ptokens stokens : List Str) (pi si : Nat) : Bool :=
  if h : ptokens.length ≤ pi then
    si == stokens.length
  else if ptokens.getD pi [] = dstar then
    (List.range (stokens.length + 1 - si)).any fun j =>
      TokensMatch ptokens stokens (pi + 1) (si + j)
  else if si == stokens.length then
    false
  else if !SegmentMatch (ptokens.getD pi []) (stokens.getD si []) then
    false
  else
    TokensMatch ptokens stokens (pi + 1) (si + 1)
termination_by ptokens.length - pi
decreasing_by all_goals omega

/-- Embedding of `WildMatchPath` (main.cpp:139-143). -/
def WildMatchPath (pattern path : Str) : Bool :=
  TokensMatch (Split pattern '/') (Split path '/') 0 0

/-- The comparison path built at main.cpp:147-150: drop one trailing slash
unless the rule is directory-only. -/
def CmpPath (p : Pattern) (rel_path : Str) : Str :=
  if rel_path.getLast? = some '/' then
    if !p.dir_only then rel_path.dropLast else rel_path
  else
    rel_path

/-- The suffix loop at main.cpp:155-159: try the pattern against the part of
the path following each slash that is not the last character. -/
def SuffixAfterSlashLoop (pat path : Str) : Bool :=
  (List.range path.length).any fun i =>
    path.getD i ' ' == '/' && decide (i + 1 < path.length) && WildMatchPath pat (path.drop (i + 1))

/-- Embedding of `GitWildMatch` (main.cpp:145-161). -/
def GitWildMatch (p : Pattern) (rel_path : Str) (is_dir : Bool) : Bool :=
  if p.dir_only && !is_dir then
    false
  else
    let path := CmpPath p rel_path
    if p.anchored then
      WildMatchPath p.pattern path
    else if WildMatchPath p.pattern path then
      true
    else
      SuffixAfterSlashLoop p.pattern path

/-- Embedding of `IsIgnored` (main.cpp:198-207): fold the rules in stored order, updating
the `matched` flag at every structurally matching rule. -/
def IsIgnored (patterns : List Pattern) (rel_posix : Str) (is_dir : Bool) : Bool :=
  patterns.foldl
    (fun matched p => if GitWildMatch p rel_posix is_dir then !p.negated else matched)
    false

/-- The per-line body of the `while (std::getline(in, line))` loop of
`LoadGitignoreSpec` (main.cpp:170-194): `none` embeds `continue` (no rule
stored), `some` the `res.push_back(...)`. -/
def CompileLine (raw : Str) : Option Pattern :=
  let l1 := Trim raw
  if l1 = [] then none
  else if l1.headD ' ' = '#' then none
  else
    let neg := l1.headD ' ' = '!'
    let l2 := if neg then Trim (l1.drop 1) else l1
    if l2 = [] then none
    else
      let dirOnly0 := l2.getLast? = some '/'
      let l3 := if dirOnly0 then l2.dropLast else l2
      let anch := l3.headD ' ' = '/'
      let l4 := if anch then l3.dropWhile (fun c => c = '/') else l3
      let l5 := NormalizeSlashes l4
      let dirOnly := if l5 = dstar then false else dirOnly0
      some ⟨l5, neg, dirOnly, anch⟩

/-- Embedding of `LoadGitignoreSpec` (main.cpp:163-196), with the `.gitignore` file's
contents passed as the argument: the file is cut into lines and each line
contributes at most one `Pattern`.  (`std::getline` yields no final empty
line for text ending in a newline; `Split` yields one, which `CompileLine`
discards, so the rule lists agree.) -/
def LoadGitignoreSpec (text : Str) : List Pattern :=
  (Split text '\n').filterMap CompileLine

/-- String-literal convenience: the character sequence of a literal. -/
def str (s : String) : Str := s.data

/-! Fueled evaluators.  The recursive matchers above are defined by
well-founded recursion and hence do not reduce inside `decide`; the
`...E` twins below run the very same branch structure on explicit fuel,
returning `none` when the fuel runs out, and every `some` answer is proved
to agree with the corresponding function.  All concrete evaluations in the
theorems below go through these twins. -/

/-- Fueled twin of `SkipStars`. -/
def SkipStarsE : Nat → Str → Nat → Option Nat
  | 0, _, _ => none
  | f + 1, pat, pi =>
    if pi < pat.length ∧ pat.getD pi ' ' = '*' then
      SkipStarsE f pat (pi + 1)
    else
      some pi

/-- Fueled twin of `SegmentMatchLoop`. -/
def SegmentMatchLoopE : Nat → Str → Str → Nat → Nat → Option (Nat × Nat) → Option Bool
  | 0, _, _, _, _, _ => none
  | f + 1, pat, text, pi, ti, star =>
    if ti < text.length then
      if pi < pat.length ∧ (pat.getD pi ' ' = '?' ∨ pat.getD pi ' ' = text.getD ti ' ') then
        SegmentMatchLoopE f pat text (pi + 1) (ti + 1) star
      else if pi < pat.length ∧ pat.getD pi ' ' = '*' then
        SegmentMatchLoopE f pat text (pi + 1) ti (some (pi + 1, ti))
      else
        match star with
        | some (spi, sti) => SegmentMatchLoopE f pat text spi (sti + 1) (some (spi, sti + 1))
        | none => some false
    else
      (SkipStarsE f pat pi).map fun n => n == pat.length

/-- Fueled twin of `SegmentMatch`. -/
def SegmentMatchE (f : Nat) (pat text : Str) : Option Bool :=
  SegmentMatchLoopE f pat text 0 0 none

/-- Combine a list of fallible boolean results: `none` if any is `none`,
otherwise their disjunction. -/
def OptAny (l : List (Option Bool)) : Option Bool :=
  l.foldr
    (fun o acc =>
      match o, acc with
      | some a, some c => some (a || c)
      | _, _ => none)
    (some false)

/-- Fueled twin of `TokensMatch`. -/
def TokensMatchE : Nat → List Str → List Str → Nat → Nat → Option Bool
  | 0, _, _, _, _ => none
  | f + 1, p, s, pi, si =>
    if p.length ≤ pi then
      some (si == s.length)
    else if p.getD pi [] = dstar then
      OptAny ((List.range (s.length + 1 - si)).map fun j => TokensMatchE f p s (pi + 1) (si + j))
    else if si == s.length then
      some false
    else
      match SegmentMatchE (f + 1) (p.getD pi []) (s.getD si []) with
      | none => none
      | some m => if !m then some false else TokensMatchE f p s (pi + 1) (si + 1)

/-- Fueled twin of `WildMatchPath`. -/
def WildMatchPathE (f : Nat) (pattern path : Str) : Option Bool :=
  TokensMatchE f (Split pattern '/') (Split path '/') 0 0

/-- Fueled twin of `SuffixAfterSlashLoop`. -/
def SuffixAfterSlashLoopE (f : Nat) (pat path : Str) : Option Bool :=
  OptAny ((List.range path.length).map fun i =>
    if path.getD i ' ' == '/' && decide (i + 1 < path.length) then
      WildMatchPathE f pat (path.drop (i + 1))
    else
      some false)

/-- Fueled twin of `GitWildMatch`. -/
def GitWildMatchE (f : Nat) (p : Pattern) (rel_path : Str) (is_dir : Bool) : Option Bool :=
  if p.dir_only && !is_dir then
    some false
  else
    let path := CmpPath p rel_path
    if p.anchored then
      WildMatchPathE f p.pattern path
    else
      match WildMatchPathE f p.pattern path with
      | none => none
      | some true => some true
      | some false => SuffixAfterSlashLoopE f p.pattern path

/-- One fold step of the fueled twin of `IsIgnored`. -/
def IsIgnoredEStep (f : Nat) (rel_posix : Str) (is_dir : Bool) (acc : Option Bool)
    (p : Pattern) : Option Bool :=
  match acc, GitWildMatchE f p rel_posix is_dir with
  | some m, some g => some (if g then !p.negated else m)
  | _, _ => none

/-- Fueled twin of `IsIgnored`. -/
def IsIgnoredE (f : Nat) (patterns : List Pattern) (rel_posix : Str) (is_dir : Bool) :
    Option Bool :=
  patterns.foldl (IsIgnoredEStep f rel_posix is_dir) (some false)

theorem SkipStarsE_sound :
    ∀ (f : Nat) (pat : Str) (pi n : Nat), SkipStarsE f pat pi = some n → SkipStars pat pi = n := by
  intro f
  induction f with
  | zero => intro pat pi n h; simp [SkipStarsE] at h
  | succ f ih =>
    intro pat pi n h
    rw [SkipStars]
    simp only [SkipStarsE] at h
    split at h
    · rename_i hc
      rw [dif_pos hc]
      exact ih pat (pi + 1) n h
    · rename_i hc
      rw [dif_neg hc]
      exact Option.some.inj h

theorem SegmentMatchLoopE_sound :
    ∀ (f : Nat) (pat text : Str) (pi ti : Nat) (star : Option (Nat × Nat)) (b : Bool),
      SegmentMatchLoopE f pat text pi ti star = some b →
      SegmentMatchLoop pat text pi ti star = b := by
  intro f
  induction f with
  | zero => intro pat text pi ti star b h; simp [SegmentMatchLoopE] at h
  | succ f ih =>
    intro pat text pi ti star b h
    rw [SegmentMatchLoop.eq_def]
    simp only [SegmentMatchLoopE] at h
    split at h
    · rename_i hti
      rw [dif_pos hti]
      split at h
      · rename_i hc
        rw [dif_pos hc]
        exact ih _ _ _ _ _ _ h
      · rename_i hc
        rw [dif_neg hc]
        split at h
        · rename_i hc2
          rw [dif_pos hc2]
          exact ih _ _ _ _ _ _ h
        · rename_i hc2
          rw [dif_neg hc2]
          cases star with
          | some q =>
            cases q with
            | mk spi sti => exact ih _ _ _ _ _ _ h
          | none => exact Option.some.inj h
    · rename_i hti
      rw [dif_neg hti]
      rcases Option.map_eq_some'.mp h with ⟨n, hn, hb⟩
      rw [SkipStarsE_sound f pat pi n hn]
      exact hb

theorem SegmentMatchE_sound (f : Nat) (pat text : Str) (b : Bool)
    (h : SegmentMatchE f pat text = some b) : SegmentMatch pat text = b :=
  SegmentMatchLoopE_sound f pat text 0 0 none b h

theorem OptAny_nil : OptAny [] = some false := rfl

theorem OptAny_cons (x : Option Bool) (l : List (Option Bool)) :
    OptAny (x :: l) =
      match x, OptAny l with
      | some a, some c => some (a || c)
      | _, _ => none := rfl

theorem OptAny_sound :
    ∀ (L : List Nat) (g : Nat → Option Bool) (gb : Nat → Bool) (b : Bool),
      (∀ j, j ∈ L → ∀ b', g j = some b' → gb j = b') →
      OptAny (L.map g) = some b → L.any gb = b := by
  intro L
  induction L with
  | nil =>
    intro g gb b _ h
    rw [List.map_nil, OptAny_nil] at h
    simp [← Option.some.inj h]
  | cons j L ih =>
    intro g gb b hp h
    rw [List.map_cons, OptAny_cons] at h
    cases hgj : g j with
    | none => rw [hgj] at h; simp at h
    | some a =>
      rw [hgj] at h
      cases hrest : OptAny (L.map g) with
      | none => rw [hrest] at h; simp at h
      | some c =>
        rw [hrest] at h
        have hb : b = (a || c) := (Option.some.inj h).symm
        have h1 : gb j = a := hp j (List.mem_cons_self j L) a hgj
        have h2 : L.any gb = c :=
          ih g gb c (fun i hi b' hb' => hp i (List.mem_cons_of_mem j hi) b' hb') hrest
        rw [List.any_cons, h1, h2, hb]

theorem TokensMatchE_sound :
    ∀ (f : Nat) (p s : List Str) (pi si : Nat) (b : Bool),
      TokensMatchE f p s pi si = some b → TokensMatch p s pi si = b := by
  intro f
  induction f with
  | zero => intro p s pi si b h; simp [TokensMatchE] at h
  | succ f ih =>
    intro p s pi si b h
    rw [TokensMatch.eq_def]
    simp only [TokensMatchE] at h
    split at h
    · rename_i hc
      rw [dif_pos hc]
      exact Option.some.inj h
    · rename_i hc
      rw [dif_neg hc]
      split at h
      · rename_i hd
        rw [if_pos hd]
        exact OptAny_sound _ _ _ b (fun j _ b' hj => ih p s (pi + 1) (si + j) b' hj) h
      · rename_i hd
        rw [if_neg hd]
        split at h
        · rename_i he
          rw [if_pos he]
          exact Option.some.inj h
        · rename_i he
          rw [if_neg he]
          cases hseg : SegmentMatchE (f + 1) (p.getD pi []) (s.getD si []) with
          | none => rw [hseg] at h; simp at h
          | some m =>
            rw [hseg] at h
            rw [SegmentMatchE_sound (f + 1) _ _ m hseg]
            cases m with
            | false =>
              simp only [Bool.not_false, if_true] at h ⊢
              exact Option.some.inj h
            | true =>
              simp only [Bool.not_true, if_false] at h ⊢
              exact ih p s (pi + 1) (si + 1) b h

theorem WildMatchPathE_sound (f : Nat) (pattern path : Str) (b : Bool)
    (h : WildMatchPathE f pattern path = some b) : WildMatchPath pattern path = b :=
  TokensMatchE_sound f _ _ 0 0 b h

theorem SuffixAfterSlashLoopE_sound (f : Nat) (pat path : Str) (b : Bool)
    (h : SuffixAfterSlashLoopE f pat path = some b) : SuffixAfterSlashLoop pat path = b := by
  refine OptAny_sound _ _ _ b ?_ h
  intro j _ b' hj
  by_cases hcond : (path.getD j ' ' == '/' && decide (j + 1 < path.length)) = true
  · rw [if_pos hcond] at hj
    rw [hcond, Bool.true_and]
    exact WildMatchPathE_sound f pat (path.drop (j + 1)) b' hj
  · rw [if_neg hcond] at hj
    rw [Bool.eq_false_iff.mpr hcond, Bool.false_and]
    exact (Option.some.inj hj)

theorem GitWildMatchE_sound (f : Nat) (p : Pattern) (rel_path : Str) (is_dir : Bool) (b : Bool)
    (h : GitWildMatchE f p rel_path is_dir = some b) : GitWildMatch p rel_path is_dir = b := by
  simp only [GitWildMatchE] at h
  simp only [GitWildMatch]
  split at h
  · rename_i hc
    rw [if_pos hc]
    exact Option.some.inj h
  · rename_i hc
    rw [if_neg hc]
    split at h
    · rename_i ha
      rw [if_pos ha]
      exact WildMatchPathE_sound f _ _ b h
    · rename_i ha
      rw [if_neg ha]
      cases hw : WildMatchPathE f p.pattern (CmpPath p rel_path) with
      | none => rw [hw] at h; simp at h
      | some w =>
        rw [hw] at h
        rw [WildMatchPathE_sound f _ _ w hw]
        cases w with
        | true =>
          simp only [if_true] at h ⊢
          exact Option.some.inj h
        | false =>
          simp only [if_false] at h ⊢
          exact SuffixAfterSlashLoopE_sound f _ _ b h

theorem IsIgnoredEStep_none (f : Nat) (s : Str) (d : Bool) :
    ∀ (rules : List Pattern), rules.foldl (IsIgnoredEStep f s d) none = none := by
  intro rules
  induction rules with
  | nil => rfl
  | cons p rules ih => simpa [IsIgnoredEStep] using ih

theorem IsIgnoredE_sound_aux (f : Nat) (s : Str) (d : Bool) :
    ∀ (rules : List Pattern) (m b : Bool),
      rules.foldl (IsIgnoredEStep f s d) (some m) = some b →
      rules.foldl (fun matched p => if GitWildMatch p s d then !p.negated else matched) m = b := by
  intro rules
  induction rules with
  | nil => intro m b h; exact Option.some.inj h
  | cons p rules ih =>
    intro m b h
    rw [List.foldl_cons] at h ⊢
    cases hg : GitWildMatchE f p s d with
    | none =>
      rw [show IsIgnoredEStep f s d (some m) p = none by simp [IsIgnoredEStep, hg]] at h
      rw [IsIgnoredEStep_none] at h
      simp at h
    | some g =>
      rw [show IsIgnoredEStep f s d (some m) p = some (if g then !p.negated else m) by
        simp [IsIgnoredEStep, hg]] at h
      rw [GitWildMatchE_sound f p s d g hg]
      exact ih (if g then !p.negated else m) b h

theorem IsIgnoredE_sound (f : Nat) (rules : List Pattern) (s : Str) (d : Bool) (b : Bool)
    (h : IsIgnoredE f rules s d = some b) : IsIgnored rules s d = b :=
  IsIgnoredE_sound_aux f s d rules false b h

/-- Modelled from the spec's evaluation rule for `isIgnored` ("last matching
rule wins"): the verdict is `!negated` of the last rule for which
`GitWildMatch` holds, and `false` when no rule matches.  Refinement target
compared against `IsIgnored`. -/
def SpecLastMatchWins (rules : List Pattern) (s : Str) (d : Bool) : Bool :=
  match rules.reverse.find? (fun p => GitWildMatch p s d) with
  | some p => !p.negated
  | none => false

theorem foldl_lastMatch (s : Str) (d : Bool) :
    ∀ (rules : List Pattern) (m : Bool),
      rules.foldl (fun matched p => if GitWildMatch p s d then !p.negated else matched) m =
        match rules.reverse.find? (fun p => GitWildMatch p s d) with
        | some p => !p.negated
        | none => m := by
  intro rules
  induction rules with
  | nil => intro m; rfl
  | cons p rules ih =>
    intro m
    rw [List.foldl_cons, ih, List.reverse_cons, List.find?_append]
    cases hf : List.find? (fun p => GitWildMatch p s d) rules.reverse with
    | some q => simp
    | none =>
      by_cases hg : GitWildMatch p s d = true
      · simp [List.find?_cons, hg]
      · simp [List.find?_cons, hg]

/-- Claim C1: `IsIgnored` evaluates the rule set in stored order and returns
the negation status of the last structurally matching rule — `!negated` of the
last rule for which `GitWildMatch` holds, `false` when no rule matches; in
particular for rules `["a", "!a"]` path `"a"` is not ignored and for
`["!a", "a"]` it is ignored. -/
theorem claim_C1 :
    (∀ (rules : List Pattern) (s : Str) (d : Bool),
      IsIgnored rules s d = SpecLastMatchWins rules s d)
    ∧ IsIgnored (LoadGitignoreSpec (str "a\n!a")) (str "a") false = false
    ∧ IsIgnored (LoadGitignoreSpec (str "!a\na")) (str "a") false = true := by
  refine ⟨?_, IsIgnoredE_sound 60 _ _ _ _ (by decide), IsIgnoredE_sound 60 _ _ _ _ (by decide)⟩
  intro rules s d
  unfold IsIgnored SpecLastMatchWins
  exact foldl_lastMatch s d rules false

/-- Claim C9: `IsIgnored` is a pure, deterministic function of the triple
`(ruleSet, relativePath, isDirectory)`: equal inputs give equal results. -/
theorem claim_C9 :
    ∀ (rules₁ rules₂ : List Pattern) (s₁ s₂ : Str) (d₁ d₂ : Bool),
      rules₁ = rules₂ → s₁ = s₂ → d₁ = d₂ →
      IsIgnored rules₁ s₁ d₁ = IsIgnored rules₂ s₂ d₂ := by
  intro rules₁ rules₂ s₁ s₂ d₁ d₂ h1 h2 h3
  rw [h1, h2, h3]

/-- Witness for C9 at a concrete input. -/
theorem claim_C9_witness :
    IsIgnored [] (str "a") false = IsIgnored [] (str "a") false :=
  claim_C9 [] [] (str "a") (str "a") false false rfl rfl rfl

/-- Claim C5: a `dir_only` rule never matches a non-directory; in particular
the rule compiled from `"logs/"` ignores a directory `logs` but not a regular
file `logs`. -/
theorem claim_C5 :
    (∀ (r : Pattern) (s : Str) (d : Bool), r.dir_only = true → d = false →
      GitWildMatch r s d = false)
    ∧ IsIgnored (LoadGitignoreSpec (str "logs/")) (str "logs") true = true
    ∧ IsIgnored (LoadGitignoreSpec (str "logs/")) (str "logs") false = false := by
  refine ⟨?_, IsIgnoredE_sound 60 _ _ _ _ (by decide), IsIgnoredE_sound 60 _ _ _ _ (by decide)⟩
  intro r s d hdo hd
  subst hd
  simp [GitWildMatch, hdo]

/-- Witness for C5 at a concrete rule and path. -/
theorem claim_C5_witness :
    GitWildMatch ⟨str "logs", false, true, false⟩ (str "logs") false = false :=
  claim_C5.1 ⟨str "logs", false, true, false⟩ (str "logs") false rfl rfl

/-- Claim C7: compilation is total and unusable lines produce no rule: a line
that trims to nothing, a comment line, and a bare-`!` line each compile to
`none`. -/
theorem claim_C7 :
    (∀ raw : Str, Trim raw = [] → CompileLine raw = none)
    ∧ (∀ raw : Str, (Trim raw).headD ' ' = '#' → CompileLine raw = none)
    ∧ (∀ raw : Str, (Trim raw).headD ' ' = '!' → Trim ((Trim raw).drop 1) = [] →
        CompileLine raw = none) := by
  refine ⟨?_, ?_, ?_⟩
  · intro raw h
    simp [CompileLine, h]
  · intro raw h
    cases hT : Trim raw with
    | nil => simp [CompileLine, hT]
    | cons c l =>
      rw [hT] at h
      simp only [List.headD_cons] at h
      subst h
      simp [CompileLine, hT]
  · intro raw h h2
    cases hT : Trim raw with
    | nil => simp [CompileLine, hT]
    | cons c l =>
      rw [hT] at h h2
      simp only [List.headD_cons] at h
      subst h
      simp only [List.drop_succ_cons, List.drop_zero] at h2
      simp [CompileLine, hT, h2, show ('!' : Char) ≠ '#' from by decide]

/-- Witness for C7 at three concrete lines. -/
theorem claim_C7_witness :
    CompileLine (str "  ") = none ∧ CompileLine (str "# c") = none ∧
      CompileLine (str "! ") = none :=
  ⟨claim_C7.1 (str "  ") (by decide), claim_C7.2.1 (str "# c") (by decide),
    claim_C7.2.2 (str "! ") (by decide) (by decide)⟩

/-- Claim C8: a stored rule whose pattern is exactly `"**"` has
`dir_only = false`, even when the line carried a trailing slash. -/
theorem claim_C8 :
    ∀ (raw : Str) (r : Pattern), CompileLine raw = some r → r.pattern = dstar →
      r.dir_only = false := by
  intro raw r hc hp
  simp only [CompileLine] at hc
  repeat' split at hc
  all_goals try exact Option.noConfusion hc
  all_goals obtain rfl := (Option.some.inj hc).symm
  all_goals
    first
      | rfl
      | exact absurd hp (by assumption)

/-- Witness for C8 at the line `"**/"`. -/
theorem claim_C8_witness :
    (Pattern.mk (str "**") false false false).dir_only = false :=
  claim_C8 (str "**/") ⟨str "**", false, false, false⟩ (by decide) (by decide)

/-- Counterexample to C6 as stated: the line `"/"` (only slashes) is NOT
discarded — it is stored as a rule whose pattern is empty. -/
theorem claim_C6_counterexample :
    ¬ (∀ r ∈ LoadGitignoreSpec (str "/"), r.pattern ≠ []) := by decide

/-- Claim C6 (amended): a rules-file line consisting only of slashes is not
discarded; it is stored as a rule with the empty pattern — `"/"` yields one
rule `⟨"", negated := false, dirOnly := true, anchored := false⟩` and `"//"`
yields one rule `⟨"", negated := false, dirOnly := true, anchored := true⟩`. -/
theorem claim_C6_amended :
    LoadGitignoreSpec (str "/") =
      [{ pattern := [], negated := false, dir_only := true, anchored := false }]
    ∧ LoadGitignoreSpec (str "//") =
      [{ pattern := [], negated := false, dir_only := true, anchored := true }] :=
  ⟨by decide, by decide⟩

/-- Fuel-indexed form of `TokensMatch` used to express termination: it follows
the same branch structure, consuming one unit of fuel per recursive call, and
answers `none` when the fuel runs out.  The single-segment matcher is the
(total) `SegmentMatch` itself, so only the `TokensMatch` recursion is fueled. -/
def TokensMatchF : Nat → List Str → List Str → Nat → Nat → Option Bool
  | 0, _, _, _, _ => none
  | f + 1, p, s, pi, si =>
    if p.length ≤ pi then
      some (si == s.length)
    else if p.getD pi [] = dstar then
      OptAny ((List.range (s.length + 1 - si)).map fun j => TokensMatchF f p s (pi + 1) (si + j))
    else if si == s.length then
      some false
    else if !SegmentMatch (p.getD pi []) (s.getD si []) then
      some false
    else
      TokensMatchF f p s (pi + 1) (si + 1)

theorem OptAny_map_all_some :
    ∀ (L : List Nat) (g : Nat → Option Bool) (gb : Nat → Bool),
      (∀ j, j ∈ L → g j = some (gb j)) →
      OptAny (L.map g) = some (L.any gb) := by
  intro L
  induction L with
  | nil => intro g gb _; rfl
  | cons j L ih =>
    intro g gb hp
    rw [List.map_cons, OptAny_cons, hp j (List.mem_cons_self j L),
      ih g gb (fun i hi => hp i (List.mem_cons_of_mem j hi)), List.any_cons]

theorem TokensMatchF_complete :
    ∀ (f : Nat) (p s : List Str) (pi si : Nat), p.length - pi < f →
      TokensMatchF f p s pi si = some (TokensMatch p s pi si) := by
  intro f
  induction f with
  | zero => intro p s pi si h; omega
  | succ f ih =>
    intro p s pi si hf
    rw [TokensMatch.eq_def]
    simp only [TokensMatchF]
    by_cases h1 : p.length ≤ pi
    · rw [if_pos h1, dif_pos h1]
    · rw [if_neg h1, dif_neg h1]
      by_cases h2 : p.getD pi [] = dstar
      · rw [if_pos h2, if_pos h2]
        exact OptAny_map_all_some _ _ _ (fun j _ => ih p s (pi + 1) (si + j) (by omega))
      · rw [if_neg h2, if_neg h2]
        by_cases h3 : (si == s.length) = true
        · rw [if_pos h3, if_pos h3]
        · rw [if_neg h3, if_neg h3]
          by_cases h4 : (!SegmentMatch (p.getD pi []) (s.getD si [])) = true
          · rw [if_pos h4, if_pos h4]
          · rw [if_neg h4, if_neg h4]
            exact ih p s (pi + 1) (si + 1) (by omega)

/-- Claim C10: the recursive segment-sequence matcher terminates on every
input — every recursive call moves to pattern index `pi + 1`, so recursion
depth is bounded by the number of remaining pattern tokens: any fuel
exceeding `ptokens.length - pi` makes the fuel-indexed form agree with the
total `TokensMatch`. -/
theorem claim_C10 :
    ∀ (f : Nat) (ptokens stokens : List Str) (pi si : Nat), ptokens.length - pi < f →
      TokensMatchF f ptokens stokens pi si = some (TokensMatch ptokens stokens pi si) :=
  TokensMatchF_complete

/-- Witness for C10 at a concrete pattern and path. -/
theorem claim_C10_witness :
    TokensMatchF 3 [str "a", dstar] [str "a"] 0 0 =
      some (TokensMatch [str "a", dstar] [str "a"] 0 0) :=
  claim_C10 3 [str "a", dstar] [str "a"] 0 0 (by decide)

/-- Claim C2: a `"**"` pattern token absorbs zero or more whole path
segments — `TokensMatch` at a `"**"` token succeeds iff the rest of the
pattern matches at some path index `k` between `si` and the path length
inclusive; consequently the pattern `a/**/b` matches `a/b`, `a/x/b` and
`a/x/y/b`. -/
theorem claim_C2 :
    (∀ (ptokens stokens : List Str) (pi si : Nat), ptokens.getD pi [] = dstar →
      (TokensMatch ptokens stokens pi si = true ↔
        ∃ k, si ≤ k ∧ k ≤ stokens.length ∧ TokensMatch ptokens stokens (pi + 1) k = true))
    ∧ WildMatchPath (str "a/**/b") (str "a/b") = true
    ∧ WildMatchPath (str "a/**/b") (str "a/x/b") = true
    ∧ WildMatchPath (str "a/**/b") (str "a/x/y/b") = true := by
  refine ⟨?_, WildMatchPathE_sound 60 _ _ _ (by decide), WildMatchPathE_sound 60 _ _ _ (by decide),
    WildMatchPathE_sound 60 _ _ _ (by decide)⟩
  intro p s pi si hd
  have hpi : ¬ p.length ≤ pi := by
    intro hle
    rw [List.getD_eq_default _ _ hle] at hd
    simp [dstar] at hd
  rw [TokensMatch.eq_def, dif_neg hpi, if_pos hd]
  simp only [List.any_eq_true, List.mem_range]
  constructor
  · rintro ⟨j, hj, htm⟩
    exact ⟨si + j, by omega, by omega, htm⟩
  · rintro ⟨k, h1, h2, htm⟩
    refine ⟨k - si, by omega, ?_⟩
    rw [show si + (k - si) = k by omega]
    exact htm

/-- Witness for C2: the general `"**"` equivalence applied at a concrete
pattern, path and index pair. -/
theorem claim_C2_witness :
    TokensMatch [dstar] [str "a"] 0 0 = true ↔
      ∃ k, 0 ≤ k ∧ k ≤ [str "a"].length ∧ TokensMatch [dstar] [str "a"] 1 k = true :=
  claim_C2.1 [dstar] [str "a"] 0 0 (by decide)

theorem SuffixAfterSlashLoop_iff (pat path : Str) :
    SuffixAfterSlashLoop pat path = true ↔
      ∃ pre suf : Str, path = pre ++ '/' :: suf ∧ suf ≠ [] ∧ WildMatchPath pat suf = true := by
  unfold SuffixAfterSlashLoop
  simp only [List.any_eq_true, List.mem_range, Bool.and_eq_true, beq_iff_eq,
    decide_eq_true_eq]
  constructor
  · rintro ⟨i, hi, ⟨hslash, hlt⟩, hw⟩
    refine ⟨path.take i, path.drop (i + 1), ?_, ?_, hw⟩
    · conv_lhs => rw [← List.take_append_drop i path]
      rw [List.drop_eq_getElem_cons hi]
      rw [List.getD_eq_getElem _ _ hi] at hslash
      rw [hslash]
    · intro hnil
      rw [List.drop_eq_nil_iff] at hnil
      omega
  · rintro ⟨pre, suf, rfl, hne, hw⟩
    have hsuf : 0 < suf.length := by
      cases suf with
      | nil => exact absurd rfl hne
      | cons a l => simp
    have hlen : (pre ++ '/' :: suf).length = pre.length + 1 + suf.length := by
      simp [List.length_append]
      omega
    refine ⟨pre.length, by omega, ⟨?_, by omega⟩, ?_⟩
    · have hq : (pre ++ '/' :: suf)[pre.length]? = some '/' := by
        rw [List.getElem?_append_right (Nat.le_refl pre.length)]
        simp
      rw [List.getD_eq_getElem?_getD, hq]
      rfl
    · have hdrop : (pre ++ '/' :: suf).drop (pre.length + 1) = suf := by
        rw [show pre ++ '/' :: suf = (pre ++ ['/']) ++ suf by simp,
          show pre.length + 1 = (pre ++ ['/']).length by simp]
        exact List.drop_left _ _
      rw [hdrop]
      exact hw

/-- Claim C3: an anchored rule matches only at the start of the relative path
(the whole comparison path must match the pattern), while an unanchored rule
may additionally match any nonempty suffix beginning just after a `'/'`
boundary; in particular `"/build"` ignores `build` but not `src/build`, while
`"build"` ignores both. -/
theorem claim_C3 :
    (∀ (r : Pattern) (s : Str) (d : Bool), r.anchored = true →
      (GitWildMatch r s d = true ↔
        (r.dir_only = true → d = true) ∧ WildMatchPath r.pattern (CmpPath r s) = true))
    ∧ (∀ (r : Pattern) (s : Str) (d : Bool), r.anchored = false →
      (GitWildMatch r s d = true ↔
        (r.dir_only = true → d = true) ∧
          (WildMatchPath r.pattern (CmpPath r s) = true ∨
            ∃ pre suf : Str, CmpPath r s = pre ++ '/' :: suf ∧ suf ≠ [] ∧
              WildMatchPath r.pattern suf = true)))
    ∧ IsIgnored (LoadGitignoreSpec (str "/build")) (str "build") false = true
    ∧ IsIgnored (LoadGitignoreSpec (str "/build")) (str "src/build") false = false
    ∧ IsIgnored (LoadGitignoreSpec (str "build")) (str "build") false = true
    ∧ IsIgnored (LoadGitignoreSpec (str "build")) (str "src/build") false = true := by
  refine ⟨?_, ?_, IsIgnoredE_sound 60 _ _ _ _ (by decide), IsIgnoredE_sound 60 _ _ _ _ (by decide),
    IsIgnoredE_sound 60 _ _ _ _ (by decide), IsIgnoredE_sound 60 _ _ _ _ (by decide)⟩
  · intro r s d ha
    unfold GitWildMatch
    cases hdo : r.dir_only <;> cases d <;> simp [ha, hdo]
  · intro r s d ha
    unfold GitWildMatch
    cases hdo : r.dir_only <;> cases d <;>
      cases hW : WildMatchPath r.pattern (CmpPath r s) <;>
        simp [ha, hdo, hW, SuffixAfterSlashLoop_iff]

/-- Witness for C3: the anchored characterization applied to the rule
compiled from `"/build"` at the path `"build"`. -/
theorem claim_C3_witness :
    GitWildMatch ⟨str "build", false, false, true⟩ (str "build") false = true ↔
      ((⟨str "build", false, false, true⟩ : Pattern).dir_only = true → false = true) ∧
        WildMatchPath (str "build")
          (CmpPath ⟨str "build", false, false, true⟩ (str "build")) = true :=
  claim_C3.1 ⟨str "build", false, false, true⟩ (str "build") false rfl

theorem segmentMatch_nil_pattern (t : Str) : SegmentMatch [] t = t.isEmpty := by
  cases t with
  | nil =>
    unfold SegmentMatch
    rw [SegmentMatchLoop.eq_def, dif_neg (by simp), SkipStars, dif_neg (by simp)]
    rfl
  | cons c rest =>
    unfold SegmentMatch
    rw [SegmentMatchLoop.eq_def, dif_pos (by simp), dif_neg (by simp), dif_neg (by simp)]
    rfl

theorem segmentMatch_qmark (t : Str) : SegmentMatch ['?'] t = (t.length == 1) := by
  cases t with
  | nil =>
    unfold SegmentMatch
    rw [SegmentMatchLoop.eq_def, dif_neg (by simp), SkipStars, dif_neg (by simp)]
    rfl
  | cons c rest =>
    unfold SegmentMatch
    rw [SegmentMatchLoop.eq_def, dif_pos (by simp), dif_pos (by simp)]
    cases rest with
    | nil =>
      rw [SegmentMatchLoop.eq_def, dif_neg (by simp), SkipStars, dif_neg (by simp)]
      rfl
    | cons d rest2 =>
      rw [SegmentMatchLoop.eq_def,
        dif_pos (show 1 < (c :: d :: rest2).length by simp only [List.length_cons]; omega),
        dif_neg (by simp), dif_neg (by simp)]
      show false = ((c :: d :: rest2).length == 1)
      simp only [List.length_cons]
      symm
      rw [beq_eq_false_iff_ne]
      omega

theorem segLoop_star_drain (t : Str) :
    ∀ (k sti ti : Nat), t.length + 1 - sti ≤ k →
      SegmentMatchLoop ['*'] t 1 ti (some (1, sti)) = true := by
  intro k
  induction k with
  | zero =>
    intro sti ti hk
    by_cases hti : ti < t.length
    · rw [SegmentMatchLoop.eq_def, dif_pos hti, dif_neg (by simp), dif_neg (by simp)]
      show SegmentMatchLoop ['*'] t 1 (sti + 1) (some (1, sti + 1)) = true
      rw [SegmentMatchLoop.eq_def, dif_neg (show ¬ sti + 1 < t.length by omega), SkipStars,
        dif_neg (by simp)]
      rfl
    · rw [SegmentMatchLoop.eq_def, dif_neg hti, SkipStars, dif_neg (by simp)]
      rfl
  | succ k ih =>
    intro sti ti hk
    by_cases hti : ti < t.length
    · rw [SegmentMatchLoop.eq_def, dif_pos hti, dif_neg (by simp), dif_neg (by simp)]
      show SegmentMatchLoop ['*'] t 1 (sti + 1) (some (1, sti + 1)) = true
      exact ih (sti + 1) (sti + 1) (by omega)
    · rw [SegmentMatchLoop.eq_def, dif_neg hti, SkipStars, dif_neg (by simp)]
      rfl

theorem segmentMatch_star_nil_text : SegmentMatch ['*'] [] = true := by
  unfold SegmentMatch
  rw [SegmentMatchLoop.eq_def, dif_neg (by simp), SkipStars, dif_pos (by simp), SkipStars,
    dif_neg (by simp)]
  rfl

theorem segmentMatch_star_one (c : Char) : SegmentMatch ['*'] [c] = true := by
  unfold SegmentMatch
  by_cases hc : c = '*'
  · subst hc
    rw [SegmentMatchLoop.eq_def, dif_pos (by simp), dif_pos (by simp)]
    rw [SegmentMatchLoop.eq_def, dif_neg (by simp), SkipStars, dif_neg (by simp)]
    rfl
  · rw [SegmentMatchLoop.eq_def, dif_pos (by simp),
      dif_neg (by simp [Ne.symm hc, show ('*' : Char) ≠ '?' from by decide]),
      dif_pos (by simp)]
    exact segLoop_star_drain [c] ([c].length + 1) 0 0 (by omega)

theorem segmentMatch_star_two (c d : Char) (r : Str) :
    SegmentMatch ['*'] (c :: d :: r) = !(c == '*') := by
  unfold SegmentMatch
  by_cases hc : c = '*'
  · subst hc
    rw [SegmentMatchLoop.eq_def, dif_pos (by simp), dif_pos (by simp)]
    rw [SegmentMatchLoop.eq_def,
      dif_pos (show 1 < ('*' :: d :: r).length by simp only [List.length_cons]; omega),
      dif_neg (by simp), dif_neg (by simp)]
    show false = !('*' == '*')
    rfl
  · have hcb : (c == '*') = false := beq_eq_false_iff_ne.mpr hc
    rw [hcb, SegmentMatchLoop.eq_def, dif_pos (by simp),
      dif_neg (by simp [Ne.symm hc, show ('*' : Char) ≠ '?' from by decide]),
      dif_pos (by simp)]
    show SegmentMatchLoop ['*'] (c :: d :: r) 1 0 (some (1, 0)) = !false
    exact segLoop_star_drain (c :: d :: r) ((c :: d :: r).length + 1) 0 0 (by omega)

theorem split_not_mem (delim : Char) :
    ∀ (s tok : Str), tok ∈ Split s delim → delim ∉ tok := by
  intro s
  induction s with
  | nil =>
    intro tok htok
    simp only [Split, List.mem_singleton] at htok
    simp [htok]
  | cons c rest ih =>
    intro tok htok
    simp only [Split] at htok
    by_cases hc : c = delim
    · rw [if_pos hc] at htok
      rcases List.mem_cons.mp htok with h | h
      · simp [h]
      · exact ih tok h
    · rw [if_neg hc] at htok
      cases hsp : Split rest delim with
      | nil =>
        rw [hsp] at htok
        have : tok = [c] := List.mem_singleton.mp htok
        subst this
        intro hmem
        rcases List.mem_cons.mp hmem with h' | h'
        · exact hc h'.symm
        · simp at h'
      | cons cur out =>
        rw [hsp] at htok
        rcases List.mem_cons.mp htok with h | h
        · subst h
          intro hmem
          rcases List.mem_cons.mp hmem with h' | h'
          · exact hc h'.symm
          · exact (ih cur (by rw [hsp]; exact List.mem_cons_self _ _)) h'
        · exact ih tok (by rw [hsp]; exact List.mem_cons_of_mem _ h)

/-- Counterexample to C4 as stated: `'*'` does NOT match every run of
characters within a segment — the literal/`'?'` comparison is tried before the
star branch, so against the text `"*a"` the pattern `"*"` consumes the text's
`'*'` literally and then fails. -/
theorem claim_C4_counterexample : SegmentMatch (str "*") (str "*a") = false :=
  SegmentMatchE_sound 60 _ _ false (by decide)

/-- Claim C4 (amended): the single-segment matcher matches the empty pattern
only against the empty text; `'?'` matches exactly one character; `'*'`
matches any run of characters within one segment, including the empty run,
EXCEPT that when the text character compared against the `'*'` is itself a
literal `'*'` the star is consumed as a one-character literal match (the
literal/`'?'` comparison has priority); matching never crosses a `'/'`
boundary since `Split` tokens never contain the delimiter; consequently the
rule `a*b` never matches the path `a/b`, while the unanchored rule `*.txt`
matches `sub/notes.txt`. -/
theorem claim_C4_amended :
    (∀ t : Str, SegmentMatch [] t = t.isEmpty)
    ∧ (∀ t : Str, SegmentMatch ['?'] t = (t.length == 1))
    ∧ SegmentMatch ['*'] [] = true
    ∧ (∀ c : Char, SegmentMatch ['*'] [c] = true)
    ∧ (∀ (c d : Char) (r : Str), SegmentMatch ['*'] (c :: d :: r) = !(c == '*'))
    ∧ (∀ (s tok : Str), tok ∈ Split s '/' → '/' ∉ tok)
    ∧ (∀ d : Bool, IsIgnored (LoadGitignoreSpec (str "a*b")) (str "a/b") d = false)
    ∧ IsIgnored (LoadGitignoreSpec (str "*.txt")) (str "sub/notes.txt") false = true := by
  refine ⟨segmentMatch_nil_pattern, segmentMatch_qmark, segmentMatch_star_nil_text,
    segmentMatch_star_one, segmentMatch_star_two, split_not_mem '/', ?_,
    IsIgnoredE_sound 60 _ _ _ _ (by decide)⟩
  intro d
  cases d
  · exact IsIgnoredE_sound 60 _ _ _ _ (by decide)
  · exact IsIgnoredE_sound 60 _ _ _ _ (by decide)

/-- Witness for C4: the no-slash-in-token part applied at a concrete split. -/
theorem claim_C4_witness : '/' ∉ str "ab" :=
  claim_C4_amended.2.2.2.2.2.1 (str "ab/c") (str "ab") (by decide)
